import Mathlib

/-!
# Verification of the Tornado matcher engine

Shallow embedding of the `tornado_engine_matcher` crate
(`src/engine/matcher/src/{matcher,accessor,operator}/mod.rs`) together with
the parts of its collaborators that the sources use but that are not part of
the provided tree (`model.rs`, `error.rs`, the extractor, action and
validator modules, `tornado_common_api`).  Definitions translated from a
missing module carry a doc comment starting with `Modelled from the spec:`.

Machine strings are modelled as Lean `String`s; all string manipulation is
done through explicit character-list helpers so that every definition
reduces in the kernel.
-/

namespace Tornado

/-! ## Character-list string helpers (Rust `str` operations) -/

/-- Characters of a string. -/
def strChars (s : String) : List Char := s.data

/-- Rust `str::trim`: drop whitespace from both ends (character lists). -/
def charsTrim (cs : List Char) : List Char :=
  ((cs.dropWhile Char.isWhitespace).reverse.dropWhile Char.isWhitespace).reverse

/-- Rust `str::trim` on strings. -/
def strTrim (s : String) : String := String.mk (charsTrim s.data)

/-- Character-list prefix test (Rust `str::starts_with` on the pattern's
characters). -/
def charsPrefix : List Char → List Char → Bool
  | [], _ => true
  | _ :: _, [] => false
  | a :: as, b :: bs => a == b && charsPrefix as bs

/-- Rust `str::starts_with`. -/
def strStartsWith (s p : String) : Bool := charsPrefix p.data s.data

/-- Rust `str::ends_with` (a suffix is a prefix of the reversal). -/
def strEndsWith (s p : String) : Bool := charsPrefix p.data.reverse s.data.reverse

/-- Rust slice `s[n..]` (drop the first `n` characters). -/
def strDrop (s : String) (n : Nat) : String := String.mk (s.data.drop n)

/-- Rust slice `s[..len-1]` (drop the final character). -/
def strDropLast (s : String) : String := String.mk s.data.dropLast

/-! ## Value (`tornado_common_api::Value`, not under `src/`) -/

/-- Modelled from the spec: the dynamically-typed `Value` tree of
`tornado_common_api` (§3): `Null`, `Bool`, `Number`, `Text`, `Array`, `Map`.
The `f64` payload of `Number` is modelled as `Int`; no claim touches
floating-point behaviour. -/
inductive Value where
  | null : Value
  | bool (b : Bool) : Value
  | number (n : Int) : Value
  | text (t : String) : Value
  | array (items : List Value) : Value
  | map (entries : List (String × Value)) : Value

/-- First-match association-list lookup (Rust `HashMap::get`). -/
def hmLookup {α : Type} : List (String × α) → String → Option α
  | [], _ => none
  | (k', v) :: rest, k => if k' == k then some v else hmLookup rest k

/-- Rust `HashMap::insert`: replace the binding if the key is present,
otherwise add it. -/
def hmInsert {α : Type} : List (String × α) → String → α → List (String × α)
  | [], k, v => [(k, v)]
  | (k', v') :: rest, k, v =>
    if k' == k then (k, v) :: rest else (k', v') :: hmInsert rest k v

/-- Apply every binding of `extra` to `base` via `hmInsert`. -/
def hmOverlay {α : Type} (base extra : List (String × α)) : List (String × α) :=
  extra.foldl (fun m kv => hmInsert m kv.1 kv.2) base

mutual
/-- Modelled from the spec: structural equality of `Value` trees
(`PartialEq` on `tornado_common_api::Value`, §4.2: `Map`/`Array` compared
structurally, no cross-type coercion). -/
def Value.beq : Value → Value → Bool
  | .null, .null => true
  | .bool a, .bool b => a == b
  | .number a, .number b => a == b
  | .text a, .text b => a == b
  | .array xs, .array ys => Value.beqList xs ys
  | .map xs, .map ys => Value.beqPairs xs ys
  | _, _ => false

/-- Element-wise equality of value sequences. -/
def Value.beqList : List Value → List Value → Bool
  | [], [] => true
  | x :: xs, y :: ys => Value.beq x y && Value.beqList xs ys
  | _, _ => false

/-- Entry-wise equality of value maps. -/
def Value.beqPairs : List (String × Value) → List (String × Value) → Bool
  | [], [] => true
  | (k1, v1) :: xs, (k2, v2) :: ys => k1 == k2 && Value.beq v1 v2 && Value.beqPairs xs ys
  | _, _ => false
end

/-- Modelled from the spec: `Value` child lookup by key (§3): defined on
`Map` entries, absent otherwise. -/
def Value.child : Value → String → Option Value
  | .map entries, key => hmLookup entries key
  | _, _ => none

/-! ## Event and ProcessedEvent (`tornado_common_api::Event`, `model.rs`;
both used by `matcher/mod.rs` and `accessor/mod.rs` but not under `src/`) -/

/-- The incoming event, as constructed in the `matcher/mod.rs` tests:
`Event { created_ts, event_type, payload }`. -/
structure Event where
  event_type : String
  created_ts : Nat
  payload : List (String × Value)

/-- The event viewed as a `Value` tree, as walked by `Accessor::get`
starting from `event.event` (keys `type`, `created_ts`, `payload`). -/
def eventAsValue (e : Event) : Value :=
  .map [("type", .text e.event_type),
        ("created_ts", .number (Int.ofNat e.created_ts)),
        ("payload", .map e.payload)]

/-- Status of one processed rule.  `matcher/mod.rs` assigns `Matched`,
`NotMatched` and `PartiallyMatched`; `NotProcessed` is listed by the spec
(§3) and never produced by this code. -/
inductive ProcessedRuleStatus where
  | Matched
  | NotMatched
  | PartiallyMatched
  | NotProcessed
deriving DecidableEq, Repr

/-- A rendered action (`tornado_common_api::Action`). -/
structure Action where
  id : String
  payload : List (String × Value)

/-- Per-rule outcome written by `Matcher::process`
(`model::ProcessedRule`, fields as used in `matcher/mod.rs`). -/
structure ProcessedRule where
  status : ProcessedRuleStatus
  extracted_vars : List (String × Value)
  actions : List Action
  message : Option String

/-- The overall result of `Matcher::process`
(`model::ProcessedEvent`, fields as used in `matcher/mod.rs` and
`accessor/mod.rs`: the event, the per-rule `matched` map keyed by rule
name, and the `extracted_vars` map read by `Accessor::ExtractedVar`). -/
structure ProcessedEvent where
  event : Event
  matched : List (String × ProcessedRule)
  extracted_vars : List (String × Value)

/-- `ProcessedEvent::new(event)`: empty `matched` and `extracted_vars`. -/
def ProcessedEvent.new (e : Event) : ProcessedEvent :=
  { event := e, matched := [], extracted_vars := [] }

/-! ## Errors (`error::MatcherError`, not under `src/`; variants as used by
`matcher/mod.rs`, `accessor/mod.rs` and their tests) -/

/-- The build- and evaluation-time error type. -/
inductive MatcherError where
  | UnknownAccessorError (accessor : String)
  | NotValidIdOrNameError (message : String)
  | NotUniqueRuleNameError (name : String)
  | NotUniqueRulePriorityError (first_rule_name second_rule_name : String) (priority : Nat)
  | MissingExtractedVariableError (variable_name rule_name : String)
  | ConfigurationError (message : String)
deriving DecidableEq, Repr

/-- Modelled from the spec: the human-readable rendering of an error
(`Display`/`to_string` of `error.rs`, which is not under `src/`); each
variant carries its context (§6). -/
def MatcherError.display : MatcherError → String
  | .UnknownAccessorError accessor => "Unknown accessor: [" ++ accessor ++ "]"
  | .NotValidIdOrNameError message => message
  | .NotUniqueRuleNameError name => "Rule name [" ++ name ++ "] is not unique"
  | .NotUniqueRulePriorityError first second _ =>
      "Rules [" ++ first ++ "] and [" ++ second ++ "] have the same priority"
  | .MissingExtractedVariableError variable_name rule_name =>
      "Cannot extract variable [" ++ variable_name ++ "] for rule [" ++ rule_name ++ "]"
  | .ConfigurationError message => message

/-! ## Accessor (`accessor/mod.rs`, under `src/`) -/

/-- `accessor::Accessor`: `Constant`, `ExtractedVar`, `Event`. -/
inductive Accessor where
  | Constant (value : Value)
  | ExtractedVar (key : String)
  | Event (keys : List String)

/-- `Accessor::get`: `Constant` returns its value; `ExtractedVar` looks up
`processed_event.extracted_vars`; `Event` walks `event.event` by the chain
of keys, stopping with `None` on a failed lookup. -/
def Accessor.get (a : Accessor) (pe : ProcessedEvent) : Option Value :=
  match a with
  | .Constant v => some v
  | .ExtractedVar key => hmLookup pe.extracted_vars key
  | .Event keys => keys.foldl (fun v k => v.bind (fun val => Value.child val k)) (some (eventAsValue pe.event))

/-- `EVENT_KEY_PARSE_TRAILING_DELIMITER`. -/
def keyDelimiter : Char := '"'

/-- The first alternative of `EVENT_KEY_PARSE_REGEX`, i.e. a quoted segment
matching the branch of the regex with quote delimiters and a nonempty body:
at a position starting with a quote, match up to the next quote provided at
least one character lies between; returns the matched token (quotes
included) and the remaining input. -/
def quotedToken (cs : List Char) : Option (List Char × List Char) :=
  match cs with
  | c :: rest =>
    if c == keyDelimiter then
      let content := rest.takeWhile (fun x => x != keyDelimiter)
      if content.isEmpty then none
      else
        match rest.dropWhile (fun x => x != keyDelimiter) with
        | d :: tail => if d == keyDelimiter then some (c :: content ++ [d], tail) else none
        | [] => none
    else none
  | [] => none

/-- One scanning pass for `eventKeyTokens`, with a step budget so the
recursion is structural (each step consumes at least one character, so a
budget of the input length is always enough). -/
def eventKeyTokensGo : Nat → List Char → List (List Char)
  | 0, _ => []
  | _, [] => []
  | fuel + 1, c :: rest =>
    if c == '.' then eventKeyTokensGo fuel rest
    else
      match quotedToken (c :: rest) with
      | some (tok, rest') => tok :: eventKeyTokensGo fuel rest'
      | none =>
        ((c :: rest).takeWhile (fun x => x != '.')) ::
          eventKeyTokensGo fuel (rest.dropWhile (fun x => x != '.'))

/-- The token stream of `EVENT_KEY_PARSE_REGEX` = `("[^"]+"|[^\.]+)` under
`captures_iter` over the key: scan left to right; dots match nothing; at a
quote, try the quoted alternative first; otherwise take the maximal run of
non-dot characters. -/
def eventKeyTokens (cs : List Char) : List (List Char) :=
  eventKeyTokensGo cs.length cs

/-- The per-capture post-processing of `AccessorBuilder::parse_event_key`:
strip the quote delimiters when the token both starts and ends with one,
then reject any remaining quote with `NotValidIdOrName`.  (The source
strips unconditionally on `starts_with && ends_with`; a length guard is
added because a one-character token would make the Rust slice panic, a
case no claim exercises.) -/
def processKeyToken (key full_accessor rule_name : String) (t : List Char) :
    Except MatcherError String :=
  let t' := if 2 ≤ t.length && t.head? == some keyDelimiter && t.getLast? == some keyDelimiter
            then (t.drop 1).dropLast else t
  if t'.contains keyDelimiter then
    .error (.NotValidIdOrNameError
      ("Payload key [" ++ key ++ "] from accessor [" ++ full_accessor ++ "] for rule [" ++
        rule_name ++ "] contains not valid characters: [\"]"))
  else .ok (String.mk t')

/-- `AccessorBuilder::parse_event_key`: tokenize the key with
`EVENT_KEY_PARSE_REGEX` and post-process each capture, failing on the first
invalid one. -/
def parse_event_key (key full_accessor rule_name : String) :
    Except MatcherError (List String) :=
  (eventKeyTokens key.data).mapM (processKeyToken key full_accessor rule_name)

/-- `^[a-zA-Z_][a-zA-Z0-9_]*$` (spec §3; the `IdValidator` module is not
under `src/`). -/
def isValidId (s : String) : Bool :=
  match s.data with
  | [] => false
  | c :: cs => (c.isAlpha || c == '_') && cs.all (fun x => x.isAlphanum || x == '_')

/-- Modelled from the spec: `IdValidator::validate_extracted_var_from_accessor`
(validator module not under `src/`): the extracted-variable name must be an
identifier, otherwise `NotValidIdOrName` naming the full accessor. -/
def validate_extracted_var_from_accessor (key full_accessor rule_name : String) :
    Except MatcherError Unit :=
  if isValidId key then .ok ()
  else .error (.NotValidIdOrNameError
    ("Extracted variable name [" ++ key ++ "] from accessor [" ++ full_accessor ++
      "] for rule [" ++ rule_name ++ "] is not valid"))

/-- The qualified key targeted by a `_variables.` accessor:
`format!("{}.{}", rule_name, key)` at `accessor/mod.rs:67`. -/
def qualifiedVarKey (rule_name key : String) : String := rule_name ++ "." ++ key

/-- `AccessorBuilder::build`: inputs delimited by `${` and `}` (after
trimming) dispatch on the inner expression (`event`-prefixed, or
`_variables.`-prefixed, else `UnknownAccessor`); anything else is a
`Constant` holding the untrimmed input text. -/
def AccessorBuilder.build (rule_name input : String) : Except MatcherError Accessor :=
  let value := strTrim input
  if strStartsWith value "$\x7b" && strEndsWith value "\x7d" then
    let path := strDropLast (strDrop value 2)
    let val := strTrim path
    if strStartsWith val "event." || val == "event" then
      let key := strTrim (strDrop val 5)
      (parse_event_key key value rule_name).map (fun keys => .Event keys)
    else if strStartsWith val "_variables." then
      let key := strTrim (strDrop val 11)
      (validate_extracted_var_from_accessor key value rule_name).map
        (fun _ => .ExtractedVar (qualifiedVarKey rule_name key))
    else .error (.UnknownAccessorError value)
  else .ok (.Constant (.text input))

/-! ## Operator (`operator/mod.rs` under `src/`; the `equal`, `and`, `or`
variant modules are not) -/

/-- `config::Operator` (config module not under `src/`; variants as
dispatched by `OperatorBuilder::build`).  The `Regex` variant is omitted:
no claim exercises it and its compilation needs the external regex crate. -/
inductive ConfigOperator where
  | Equal (first second : String)
  | And (operators : List ConfigOperator)
  | Or (operators : List ConfigOperator)

/-- Compiled operator tree. -/
inductive Operator where
  | Equal (first second : Accessor)
  | And (operators : List Operator)
  | Or (operators : List Operator)

mutual
/-- Modelled from the spec: operator evaluation (§4.2; the `equal`, `and`,
`or` modules are not under `src/`): `Equal` is false when either accessor
is absent, else value equality; `And` is conjunction (empty is true); `Or`
is disjunction (empty is false).  Per `matcher/mod.rs:87` the operator
receives the whole `ProcessedEvent`. -/
def Operator.evaluate : Operator → ProcessedEvent → Bool
  | .Equal first second, pe =>
    match first.get pe, second.get pe with
    | some a, some b => Value.beq a b
    | _, _ => false
  | .And ops, pe => Operator.evalAll ops pe
  | .Or ops, pe => Operator.evalAny ops pe

/-- Conjunction over a list of operators. -/
def Operator.evalAll : List Operator → ProcessedEvent → Bool
  | [], _ => true
  | o :: os, pe => Operator.evaluate o pe && Operator.evalAll os pe

/-- Disjunction over a list of operators. -/
def Operator.evalAny : List Operator → ProcessedEvent → Bool
  | [], _ => false
  | o :: os, pe => Operator.evaluate o pe || Operator.evalAny os pe
end

mutual
/-- `OperatorBuilder::build` (for the variants modelled here): build the
accessors of `Equal` and recurse into `And`/`Or`, propagating the first
accessor error. -/
def OperatorBuilder.build (rule_name : String) : ConfigOperator → Except MatcherError Operator
  | .Equal first second =>
    match AccessorBuilder.build rule_name first with
    | .error e => .error e
    | .ok f =>
      match AccessorBuilder.build rule_name second with
      | .error e => .error e
      | .ok s => .ok (.Equal f s)
  | .And ops => (OperatorBuilder.buildList rule_name ops).map Operator.And
  | .Or ops => (OperatorBuilder.buildList rule_name ops).map Operator.Or

/-- Build every operator of a list, propagating the first error. -/
def OperatorBuilder.buildList (rule_name : String) : List ConfigOperator → Except MatcherError (List Operator)
  | [] => .ok []
  | o :: os =>
    match OperatorBuilder.build rule_name o with
    | .error e => .error e
    | .ok b =>
      match OperatorBuilder.buildList rule_name os with
      | .error e => .error e
      | .ok bs => .ok (b :: bs)
end

/-! ## Extractor (`matcher/extractor.rs`, not under `src/`) -/

/-- Modelled from the spec: a compiled per-variable extractor (§4.3): the
`from` accessor plus the semantics of `{ regex, group_match_idx }` as an
abstract capture function from the rendered text to the optionally
extracted value (the regex engine is external). -/
structure VarExtractor where
  fromAcc : Accessor
  capture : String → Option Value

/-- Modelled from the spec: the compiled `with` mapping of one rule
(`MatcherExtractor`), keeping the owning rule's name for key
qualification. -/
structure MatcherExtractor where
  ruleName : String
  vars : List (String × VarExtractor)

/-- Modelled from the spec: the loop of `extract_all` (§4.3): for each
variable render `from` against the event plus the variables extracted so
far; a missing or non-text rendering or a failed capture aborts with
`MissingExtractedVariable`; a captured value is stored under the qualified
key `"<rule_name>.<var>"`. -/
def extractVarsLoop (pe : ProcessedEvent) (ruleName : String) :
    List (String × VarExtractor) → List (String × Value) →
    Except MatcherError (List (String × Value))
  | [], acc => .ok acc
  | (varName, ve) :: rest, acc =>
    let pe' := { pe with extracted_vars := hmOverlay pe.extracted_vars acc }
    match ve.fromAcc.get pe' with
    | some (.text t) =>
      match ve.capture t with
      | some v => extractVarsLoop pe ruleName rest (hmInsert acc (qualifiedVarKey ruleName varName) v)
      | none => .error (.MissingExtractedVariableError varName ruleName)
    | _ => .error (.MissingExtractedVariableError varName ruleName)

/-- Modelled from the spec: `MatcherExtractor::extract_all` (§4.3),
with the signature used at `matcher/mod.rs:93`: it reads the
`ProcessedEvent` and returns the map of this rule's extracted variables
or the first failure. -/
def MatcherExtractor.extract_all (ex : MatcherExtractor) (pe : ProcessedEvent) :
    Except MatcherError (List (String × Value)) :=
  extractVarsLoop pe ex.ruleName ex.vars []

/-- Modelled from the spec: the configured `{ from, regex }` of one `with`
entry (`config::Extractor`); the regex payload is carried as its capture
semantics. -/
structure Extractor where
  fromExpr : String
  capture : String → Option Value

/-- Modelled from the spec: `MatcherExtractorBuilder::build`: compile each
`from` expression with the rule's name as context, propagating accessor
errors. -/
def MatcherExtractorBuilder.build (rule_name : String)
    (withVars : List (String × Extractor)) : Except MatcherError MatcherExtractor :=
  match buildVars withVars with
  | .error e => .error e
  | .ok vars => .ok { ruleName := rule_name, vars := vars }
where
  buildVars : List (String × Extractor) → Except MatcherError (List (String × VarExtractor))
    | [] => .ok []
    | (name, ex) :: rest =>
      match AccessorBuilder.build rule_name ex.fromExpr with
      | .error e => .error e
      | .ok acc =>
        match buildVars rest with
        | .error e => .error e
        | .ok vars => .ok ((name, { fromAcc := acc, capture := ex.capture }) :: vars)

/-! ## Actions (`matcher/action.rs`, not under `src/`) -/

/-- Modelled from the spec: a configured action template (§4.4): an id and
a payload of accessor expressions. -/
structure ConfigAction where
  id : String
  payload : List (String × String)

/-- Modelled from the spec: a compiled action (`MatcherAction`): the id and
the compiled payload accessors. -/
structure MatcherAction where
  id : String
  payload : List (String × Accessor)

/-- Modelled from the spec: `MatcherAction::execute` (§4.4): render every
payload entry against the processed event; an absent value fails with
`MissingExtractedVariable`. -/
def MatcherAction.execute (a : MatcherAction) (pe : ProcessedEvent) :
    Except MatcherError Action :=
  match renderPayload a.payload with
  | .error e => .error e
  | .ok rendered => .ok { id := a.id, payload := rendered }
where
  renderPayload : List (String × Accessor) → Except MatcherError (List (String × Value))
    | [] => .ok []
    | (k, acc) :: rest =>
      match acc.get pe with
      | none => .error (.MissingExtractedVariableError k a.id)
      | some v =>
        match renderPayload rest with
        | .error e => .error e
        | .ok vs => .ok ((k, v) :: vs)

/-- Modelled from the spec: `MatcherActionBuilder::build`: compile each
action's payload expressions with the rule's name as context, propagating
accessor errors. -/
def MatcherActionBuilder.build (rule_name : String) :
    List ConfigAction → Except MatcherError (List MatcherAction)
  | [] => .ok []
  | a :: rest =>
    match buildPayload rule_name a.payload with
    | .error e => .error e
    | .ok payload =>
      match MatcherActionBuilder.build rule_name rest with
      | .error e => .error e
      | .ok as' => .ok ({ id := a.id, payload := payload } :: as')
where
  buildPayload (rule_name : String) : List (String × String) → Except MatcherError (List (String × Accessor))
    | [] => .ok []
    | (k, s) :: rest =>
      match AccessorBuilder.build rule_name s with
      | .error e => .error e
      | .ok acc =>
        match buildPayload rule_name rest with
        | .error e => .error e
        | .ok accs => .ok ((k, acc) :: accs)

/-! ## Configuration rule and validator (`config.rs` and the validator
module, not under `src/`; the `Rule` fields are those read by
`matcher/mod.rs` and constructed in its tests) -/

/-- One `with` constraint plus the `where` operator (`config::Constraint`;
the Lean field names avoid the `where`/`with` keywords). -/
structure Constraint where
  where_operator : ConfigOperator
  withVars : List (String × Extractor)

/-- `config::Rule` as constructed in the `matcher/mod.rs` tests:
`{ name, priority, do_continue, active, actions, description, constraint }`
with `priority: u16`. -/
structure Rule where
  name : String
  description : String
  priority : Nat
  do_continue : Bool
  active : Bool
  constraint : Constraint
  actions : List ConfigAction

/-- Modelled from the spec: the rule-name uniqueness check of
`RuleValidator` (§4.5; the test
`build_should_fail_if_not_unique_name` pins the error variant): the first
name that reappears later in the list fails with `NotUniqueRuleName`. -/
def checkUniqueNames : List Rule → Except MatcherError Unit
  | [] => .ok ()
  | r :: rest =>
    if rest.any (fun r' => r'.name == r.name) then .error (.NotUniqueRuleNameError r.name)
    else checkUniqueNames rest

/-- Modelled from the spec: the priority uniqueness check of
`RuleValidator` (§9; the test `build_should_fail_if_not_unique_priority`
pins the error variant and its fields). -/
def checkUniquePriorities : List Rule → Except MatcherError Unit
  | [] => .ok ()
  | r :: rest =>
    match rest.find? (fun r' => r'.priority == r.priority) with
    | some r' => .error (.NotUniqueRulePriorityError r.name r'.name r.priority)
    | none => checkUniquePriorities rest

/-- Modelled from the spec: the identifier check of `RuleValidator`
(§4.5): every rule name must be an identifier. -/
def checkNames : List Rule → Except MatcherError Unit
  | [] => .ok ()
  | r :: rest =>
    if isValidId r.name then checkNames rest
    else .error (.NotValidIdOrNameError ("Rule name [" ++ r.name ++ "] is not valid"))

/-- Modelled from the spec: `RuleValidator::validate_all` (§4.5, §9):
identifier names, unique names, unique priorities. -/
def RuleValidator.validate_all (rules : List Rule) : Except MatcherError Unit :=
  match checkNames rules with
  | .error e => .error e
  | .ok _ =>
    match checkUniqueNames rules with
    | .error e => .error e
    | .ok _ => checkUniquePriorities rules

/-! ## Matcher (`matcher/mod.rs`, under `src/`) -/

/-- `MatcherRule` (`matcher/mod.rs:15`): name, priority, continuation flag,
compiled operator, extractor and actions. -/
structure MatcherRule where
  name : String
  priority : Nat
  do_continue : Bool
  operator : Operator
  extractor : MatcherExtractor
  actions : List MatcherAction

/-- `Matcher` (`matcher/mod.rs:27`): the compiled rule vector. -/
structure Matcher where
  rules : List MatcherRule

/-- The compilation of one active rule inside the loop of `Matcher::new`
(`matcher/mod.rs:48`): build the operator, the extractor and the actions,
propagating the first error. -/
def Matcher.buildRule (r : Rule) : Except MatcherError MatcherRule :=
  match OperatorBuilder.build r.name r.constraint.where_operator with
  | .error e => .error e
  | .ok op =>
    match MatcherExtractorBuilder.build r.name r.constraint.withVars with
    | .error e => .error e
    | .ok ex =>
      match MatcherActionBuilder.build r.name r.actions with
      | .error e => .error e
      | .ok acts =>
        .ok { name := r.name, priority := r.priority, do_continue := r.do_continue,
              operator := op, extractor := ex, actions := acts }

/-- The rule loop of `Matcher::new` (`matcher/mod.rs:43`): inactive rules
are skipped; active rules are compiled in declaration order. -/
def Matcher.compileRules : List Rule → Except MatcherError (List MatcherRule)
  | [] => .ok []
  | r :: rest =>
    if r.active then
      match Matcher.buildRule r with
      | .error e => .error e
      | .ok mr =>
        match Matcher.compileRules rest with
        | .error e => .error e
        | .ok mrs => .ok (mr :: mrs)
    else Matcher.compileRules rest

/-- Stable insertion by ascending priority. -/
def insertByPriority (a : MatcherRule) : List MatcherRule → List MatcherRule
  | [] => [a]
  | b :: bs => if b.priority ≤ a.priority then b :: insertByPriority a bs else a :: b :: bs

/-- The stable `sort_by(|a, b| a.priority.cmp(&b.priority))` of
`matcher/mod.rs:61`, as a stable insertion sort. -/
def sortByPriority (l : List MatcherRule) : List MatcherRule :=
  l.foldl (fun acc x => insertByPriority x acc) []

/-- `Matcher::new` (`matcher/mod.rs:33`): validate, compile the active
rules, sort by priority. -/
def Matcher.new (rules : List Rule) : Except MatcherError Matcher :=
  match RuleValidator.validate_all rules with
  | .error e => .error e
  | .ok _ =>
    match Matcher.compileRules rules with
    | .error e => .error e
    | .ok compiled => .ok { rules := sortByPriority compiled }

/-- The diagnostic of `matcher/mod.rs:116` (extraction failure). -/
def extractFailMessage (rule_name : String) (e : MatcherError) : String :=
  "Matcher process - The event matches the rule [" ++ rule_name ++
    "] but some variables cannot be extracted: [" ++ e.display ++ "]"

/-- The diagnostic of `matcher/mod.rs:108` (action resolution failure). -/
def actionsFailMessage (rule_name : String) (e : MatcherError) : String :=
  "Matcher process - The event matches the rule [" ++ rule_name ++
    "] and all variables are extracted correctly; however, some actions cannot be resolved: [" ++
    e.display ++ "]"

/-- `Matcher::process_actions` (`matcher/mod.rs:135`): push each rendered
action onto the processed rule in order; on the first failure return the
error together with the rule as mutated so far (the Rust function mutates
`processed_rule` in place before returning `Err`). -/
def Matcher.process_actions (pe : ProcessedEvent) (pr : ProcessedRule) :
    List MatcherAction → ProcessedRule × Option MatcherError
  | [] => (pr, none)
  | a :: rest =>
    match a.execute pe with
    | .ok ra => Matcher.process_actions pe { pr with actions := pr.actions ++ [ra] } rest
    | .error e => (pr, some e)

/-- The body of one iteration of the rule loop of `Matcher::process`
(`matcher/mod.rs:80`–`121`), producing the `ProcessedRule` that the
iteration inserts: `NotMatched` when the operator rejects; else
`PartiallyMatched` with the extraction diagnostic when `extract_all`
fails; else `PartiallyMatched` with the action diagnostic when an action
fails; else `Matched`. -/
def Matcher.evalRule (pe : ProcessedEvent) (rule : MatcherRule) : ProcessedRule :=
  let pr0 : ProcessedRule :=
    { status := .NotMatched, extracted_vars := [], actions := [], message := none }
  if rule.operator.evaluate pe then
    match rule.extractor.extract_all pe with
    | .ok vars =>
      let pr1 := { pr0 with extracted_vars := vars }
      match Matcher.process_actions pe pr1 rule.actions with
      | (pr2, none) => { pr2 with status := .Matched }
      | (pr2, some e) =>
        { pr2 with status := .PartiallyMatched, message := some (actionsFailMessage rule.name e) }
    | .error e =>
      { pr0 with status := .PartiallyMatched, message := some (extractFailMessage rule.name e) }
  else pr0

/-- The rule loop of `Matcher::process` (`matcher/mod.rs:77`–`126`): insert
the processed rule under the rule's name and `break` exactly when the rule
reached `Matched` with `do_continue == false`. -/
def Matcher.processRules (pe : ProcessedEvent) : List MatcherRule → ProcessedEvent
  | [] => pe
  | rule :: rest =>
    let pr := Matcher.evalRule pe rule
    let pe' := { pe with matched := hmInsert pe.matched rule.name pr }
    if pr.status == ProcessedRuleStatus.Matched && !rule.do_continue then pe'
    else Matcher.processRules pe' rest

/-- `Matcher::process` (`matcher/mod.rs:72`): run the rule loop on a fresh
`ProcessedEvent`; the result is always a `ProcessedEvent` (the function is
total; evaluation-time failures are embedded as rule statuses). -/
def Matcher.process (m : Matcher) (event : Event) : ProcessedEvent :=
  Matcher.processRules (ProcessedEvent.new event) m.rules

/-- The rules that the loop of `Matcher::process` actually visits: the
prefix of the compiled rules up to and including the first rule that
reaches `Matched` with `do_continue == false`. -/
def Matcher.reachedRules (pe : ProcessedEvent) : List MatcherRule → List MatcherRule
  | [] => []
  | rule :: rest =>
    let pr := Matcher.evalRule pe rule
    let pe' := { pe with matched := hmInsert pe.matched rule.name pr }
    if pr.status == ProcessedRuleStatus.Matched && !rule.do_continue then [rule]
    else rule :: Matcher.reachedRules pe' rest

/-! ## Concrete fixtures for the witnesses and counterexamples -/

/-- An event of type `email` with an empty payload, as in the
`matcher/mod.rs` tests. -/
def fixtureEvent : Event := { event_type := "email", created_ts := 0, payload := [] }

/-- A fresh processed event over `fixtureEvent`. -/
def fixturePe : ProcessedEvent := ProcessedEvent.new fixtureEvent

/-- A compiled operator that accepts every event
(`Equal { first: "1", second: "1" }` from the tests). -/
def opAlwaysTrue : Operator := .Equal (.Constant (.text "1")) (.Constant (.text "1"))

/-- An extractor with no variables. -/
def emptyExtractor (rn : String) : MatcherExtractor := { ruleName := rn, vars := [] }

/-- A compiled rule whose single extractor always fails to capture. -/
def mrFailExtract : MatcherRule :=
  { name := "r1", priority := 0, do_continue := true, operator := opAlwaysTrue,
    extractor := { ruleName := "r1",
                   vars := [("v", { fromAcc := .Constant (.text "t"), capture := fun _ => none })] },
    actions := [] }

/-- A compiled rule that matches with no extractions and no actions. -/
def mrPlain : MatcherRule :=
  { name := "r2", priority := 1, do_continue := true, operator := opAlwaysTrue,
    extractor := emptyExtractor "r2", actions := [] }

/-- A matcher holding only `mrPlain`. -/
def mPlainMatcher : Matcher := { rules := [mrPlain] }

/-- A matching rule with `do_continue == false`. -/
def mrStop : MatcherRule :=
  { name := "r3", priority := 0, do_continue := false, operator := opAlwaysTrue,
    extractor := emptyExtractor "r3", actions := [] }

/-- A matcher whose first rule matches and stops (`do_continue == false`)
before the second rule. -/
def mStopMatcher : Matcher := { rules := [mrStop, mrPlain] }

/-- A configuration rule factory mirroring `new_rule` of the
`matcher/mod.rs` tests. -/
def mkConfigRule (name : String) (priority : Nat) (op : ConfigOperator) : Rule :=
  { name := name, description := "", priority := priority, do_continue := true, active := true,
    constraint := { where_operator := op, withVars := [] }, actions := [] }

/-- The always-true configured operator of the tests. -/
def cfgOpTrue : ConfigOperator := .Equal "1" "1"

/-- A configured operator matching events of type `email`. -/
def cfgOpEmail : ConfigOperator := .Equal "${event.type}" "email"

/-- Rule `a`, declared first, priority 2, matching, `do_continue: false`. -/
def c4RuleA : Rule := { mkConfigRule "a" 2 cfgOpEmail with do_continue := false }

/-- Rule `b`, declared second, priority 1, matching, `do_continue: false`. -/
def c4RuleB : Rule := { mkConfigRule "b" 1 cfgOpEmail with do_continue := false }

/-- An inactive configuration rule whose operator would match anything. -/
def c5Inactive : Rule := { mkConfigRule "a" 0 cfgOpTrue with active := false }

/-- The compiled form of `${event.type} == "email"`. -/
def opEmailCompiled : Operator := .Equal (.Event ["type"]) (.Constant (.text "email"))

/-- The matcher that `Matcher::new` produces from `[c4RuleA, c4RuleB]`:
rule `b` first (priority 1), then rule `a` (priority 2). -/
def c4CompiledMatcher : Matcher :=
  { rules :=
      [{ name := "b", priority := 1, do_continue := false, operator := opEmailCompiled,
         extractor := emptyExtractor "b", actions := [] },
       { name := "a", priority := 2, do_continue := false, operator := opEmailCompiled,
         extractor := emptyExtractor "a", actions := [] }] }

/-- A one-variable extractor fixture whose capture always yields `m`. -/
def c6Extractor : MatcherExtractor :=
  { ruleName := "r",
    vars := [("x", { fromAcc := .Constant (.text "t"), capture := fun _ => some (.text "m") })] }

/-- The freshly initialised `ProcessedRule` of one loop iteration
(`matcher/mod.rs:80`): status `NotMatched`, nothing extracted, no actions,
no message. -/
def notMatchedRule : ProcessedRule :=
  { status := .NotMatched, extracted_vars := [], actions := [], message := none }

/-- The `ProcessedRule` recorded when extraction fails
(`matcher/mod.rs:115`–`119`). -/
def partiallyMatchedExtract (rule_name : String) (err : MatcherError) : ProcessedRule :=
  { status := .PartiallyMatched, extracted_vars := [], actions := [],
    message := some (extractFailMessage rule_name err) }

/-! ## Helper lemmas -/

theorem hmLookup_insert_self {α : Type} (m : List (String × α)) (k : String) (v : α) :
    hmLookup (hmInsert m k v) k = some v := by
  induction m with
  | nil => simp [hmInsert, hmLookup]
  | cons kv rest ih =>
    obtain ⟨k', v'⟩ := kv
    by_cases h : k' == k
    · simp [hmInsert, h, hmLookup]
    · simp only [hmInsert, h, if_false, hmLookup]
      simpa using ih

theorem hmLookup_insert_other {α : Type} (m : List (String × α)) (k k' : String) (v : α)
    (h : k' ≠ k) : hmLookup (hmInsert m k v) k' = hmLookup m k' := by
  induction m with
  | nil =>
    simp only [hmInsert, hmLookup]
    rw [if_neg (by simpa using fun hh => h hh.symm)]
  | cons kv rest ih =>
    obtain ⟨k0, v0⟩ := kv
    by_cases h0 : k0 == k
    · have hk0 : k0 = k := by simpa using h0
      subst hk0
      simp only [hmInsert, beq_self_eq_true, if_true, hmLookup]
      rw [if_neg (by simpa using fun hh => h hh.symm), if_neg (by simpa using fun hh => h hh.symm)]
    · simp only [hmInsert, h0, if_false, hmLookup]
      by_cases h1 : k0 == k'
      · rw [if_pos h1, if_pos h1]
      · rw [if_neg h1, if_neg h1]
        exact ih

theorem hmLookup_none_of_not_mem {α : Type} (m : List (String × α)) (k : String)
    (h : k ∉ m.map Prod.fst) : hmLookup m k = none := by
  induction m with
  | nil => rfl
  | cons kv rest ih =>
    obtain ⟨k0, v0⟩ := kv
    simp only [List.map_cons, List.mem_cons] at h
    push_neg at h
    simp only [hmLookup]
    rw [if_neg (by simpa using fun hh => h.1 (by simpa using hh.symm))]
    exact ih h.2

theorem hmInsert_append_of_not_mem {α : Type} (m : List (String × α)) (k : String) (v : α)
    (h : k ∉ m.map Prod.fst) : hmInsert m k v = m ++ [(k, v)] := by
  induction m with
  | nil => rfl
  | cons kv rest ih =>
    obtain ⟨k0, v0⟩ := kv
    simp only [List.map_cons, List.mem_cons] at h
    push_neg at h
    simp only [hmInsert]
    rw [if_neg (by simpa using fun hh => h.1 (by simpa using hh.symm))]
    simp [ih h.2]

theorem hmLookup_isSome_iff_mem {α : Type} (m : List (String × α)) (k : String) :
    (hmLookup m k).isSome = true ↔ k ∈ m.map Prod.fst := by
  induction m with
  | nil => simp [hmLookup]
  | cons kv rest ih =>
    obtain ⟨k0, v0⟩ := kv
    by_cases h : k0 == k
    · have : k0 = k := by simpa using h
      subst this
      simp [hmLookup]
    · have hne : k0 ≠ k := by simpa using h
      simp only [hmLookup, h, if_false, List.map_cons, List.mem_cons,
        Bool.false_eq_true, ih]
      constructor
      · exact Or.inr
      · rintro (hh | hh)
        · exact absurd hh.symm hne
        · exact hh

/-- `process_actions` leaves no error exactly when every action of the
list renders successfully. -/
theorem process_actions_none_iff (pe : ProcessedEvent) (acts : List MatcherAction) :
    ∀ pr : ProcessedRule, (Matcher.process_actions pe pr acts).2 = none ↔
      ∀ a ∈ acts, ∃ ra, a.execute pe = .ok ra := by
  induction acts with
  | nil => intro pr; simp [Matcher.process_actions]
  | cons a rest ih =>
    intro pr
    simp only [Matcher.process_actions]
    cases hex : a.execute pe with
    | ok ra =>
      rw [ih]
      constructor
      · intro h b hb
        rcases List.mem_cons.mp hb with hb | hb
        · exact hb ▸ ⟨ra, hex⟩
        · exact h b hb
      · intro h b hb
        exact h b (List.mem_cons_of_mem a hb)
    | error e =>
      simp only
      constructor
      · intro h
        exact absurd h (by simp)
      · intro h
        rcases h a (List.mem_cons_self a rest) with ⟨ra, hra⟩
        rw [hex] at hra
        exact absurd hra (by simp)

/-- Inversion of `Matcher.evalRule` at status `Matched`: the operator
matched, `extract_all` succeeded and every action rendered. -/
theorem evalRule_matched_inv (pe : ProcessedEvent) (rule : MatcherRule)
    (h : (Matcher.evalRule pe rule).status = ProcessedRuleStatus.Matched) :
    rule.operator.evaluate pe = true ∧
      (∃ vars, rule.extractor.extract_all pe = .ok vars) ∧
      ∀ a ∈ rule.actions, ∃ ra, a.execute pe = .ok ra := by
  unfold Matcher.evalRule at h
  by_cases hop : rule.operator.evaluate pe
  · rw [if_pos hop] at h
    cases hex : rule.extractor.extract_all pe with
    | ok vars =>
      rw [hex] at h
      simp only at h
      cases hacts : Matcher.process_actions pe
          { status := ProcessedRuleStatus.NotMatched, extracted_vars := vars,
            actions := [], message := none } rule.actions with
      | mk pr2 errOpt =>
        cases errOpt with
        | none =>
          refine ⟨hop, ⟨vars, rfl⟩, ?_⟩
          have := (process_actions_none_iff pe rule.actions _).mp (by rw [hacts])
          exact this
        | some e =>
          rw [hacts] at h
          simp at h
    | error e =>
      rw [hex] at h
      simp at h
  · rw [if_neg hop] at h
    simp at h

theorem hmLookup_insert_isSome {α : Type} (m : List (String × α)) (k k' : String) (v : α)
    (h : (hmLookup m k').isSome = true) : (hmLookup (hmInsert m k v) k').isSome = true := by
  by_cases hk : k' = k
  · subst hk
    rw [hmLookup_insert_self]
    rfl
  · rw [hmLookup_insert_other m k k' v hk]
    exact h

/-- A successful `extractVarsLoop` result keeps every key of the
accumulator and holds the qualified key of every listed variable. -/
theorem extractVarsLoop_ok_keys (pe : ProcessedEvent) (rn : String) :
    ∀ (l : List (String × VarExtractor)) (acc res : List (String × Value)),
      extractVarsLoop pe rn l acc = .ok res →
      (∀ k, (hmLookup acc k).isSome = true → (hmLookup res k).isSome = true) ∧
      ∀ p ∈ l, (hmLookup res (qualifiedVarKey rn p.1)).isSome = true := by
  intro l
  induction l with
  | nil =>
    intro acc res h
    simp only [extractVarsLoop] at h
    cases h
    exact ⟨fun k hk => hk, by simp⟩
  | cons p rest ih =>
    intro acc res h
    obtain ⟨n, ve⟩ := p
    simp only [extractVarsLoop] at h
    cases hget : ve.fromAcc.get { pe with extracted_vars := hmOverlay pe.extracted_vars acc } with
    | none =>
      rw [hget] at h
      exact absurd h (by simp)
    | some v0 =>
      rw [hget] at h
      cases v0 with
      | text t =>
        have h2 : (match ve.capture t with
            | some v => extractVarsLoop pe rn rest (hmInsert acc (qualifiedVarKey rn n) v)
            | none => Except.error (MatcherError.MissingExtractedVariableError n rn)) =
              Except.ok res := h
        cases hcap : ve.capture t with
        | none =>
          rw [hcap] at h2
          exact absurd h2 (by simp)
        | some v =>
          rw [hcap] at h2
          rcases ih (hmInsert acc (qualifiedVarKey rn n) v) res h2 with ⟨hpres, hall⟩
          refine ⟨?_, ?_⟩
          · intro k hk
            exact hpres k (hmLookup_insert_isSome acc (qualifiedVarKey rn n) k v hk)
          · intro q hq
            rcases List.mem_cons.mp hq with hq | hq
            · subst hq
              refine hpres _ ?_
              rw [hmLookup_insert_self]
              rfl
            · exact hall q hq
      | null => exact absurd h (by simp)
      | bool b => exact absurd h (by simp)
      | number x => exact absurd h (by simp)
      | array xs => exact absurd h (by simp)
      | map xs => exact absurd h (by simp)

/-- Inversion of the rule loop at an output entry with status `Matched`:
it either was already present or was produced by some listed rule at some
intermediate state where the operator matched, extraction succeeded and
every action rendered. -/
theorem processRules_matched_inv :
    ∀ (rs : List MatcherRule) (pe : ProcessedEvent) (name : String) (pr : ProcessedRule),
      hmLookup (Matcher.processRules pe rs).matched name = some pr →
      pr.status = ProcessedRuleStatus.Matched →
      hmLookup pe.matched name = some pr ∨
      ∃ rule ∈ rs, rule.name = name ∧ ∃ pe',
        rule.operator.evaluate pe' = true ∧
        (∃ vars, rule.extractor.extract_all pe' = .ok vars) ∧
        ∀ a ∈ rule.actions, ∃ ra, a.execute pe' = .ok ra := by
  intro rs
  induction rs with
  | nil =>
    intro pe name pr hlook _
    exact Or.inl hlook
  | cons rule rest ih =>
    intro pe name pr hlook hst
    simp only [Matcher.processRules] at hlook
    by_cases hstop :
        ((Matcher.evalRule pe rule).status == ProcessedRuleStatus.Matched &&
          !rule.do_continue) = true
    · rw [if_pos hstop] at hlook
      by_cases hname : name = rule.name
      · subst hname
        rw [hmLookup_insert_self] at hlook
        have hpr : pr = Matcher.evalRule pe rule := by
          cases hlook
          rfl
        subst hpr
        rcases evalRule_matched_inv pe rule hst with ⟨hop, hex, hacts⟩
        exact Or.inr ⟨rule, List.mem_cons_self rule rest, rfl, pe, hop, hex, hacts⟩
      · rw [hmLookup_insert_other _ _ _ _ hname] at hlook
        exact Or.inl hlook
    · rw [if_neg hstop] at hlook
      rcases ih _ name pr hlook hst with hbase | ⟨rule', hmem, hn, pe'', hprops⟩
      · by_cases hname : name = rule.name
        · subst hname
          rw [hmLookup_insert_self] at hbase
          have hpr : pr = Matcher.evalRule pe rule := by
            cases hbase
            rfl
          subst hpr
          rcases evalRule_matched_inv pe rule hst with ⟨hop, hex, hacts⟩
          exact Or.inr ⟨rule, List.mem_cons_self rule rest, rfl, pe, hop, hex, hacts⟩
        · rw [hmLookup_insert_other _ _ _ _ hname] at hbase
          exact Or.inl hbase
      · exact Or.inr ⟨rule', List.mem_cons_of_mem rule hmem, hn, pe'', hprops⟩

/-! ## Claim theorems -/

/-- **C1**: `Matcher::process` is total (it always returns a
`ProcessedEvent`; in this embedding `Matcher.processRules` is a total
function): when a rule's `where` operator matches but `extract_all` fails,
the loop records that rule with status `PartiallyMatched` and a message
containing the rule name and the rendered underlying error, and then
continues with the remaining rules of the set. -/
theorem c1_extract_failure_partially_matched_and_continues
    (pe : ProcessedEvent) (rule : MatcherRule) (rest : List MatcherRule) (err : MatcherError)
    (hop : rule.operator.evaluate pe = true)
    (hex : rule.extractor.extract_all pe = .error err) :
    Matcher.processRules pe (rule :: rest) =
      Matcher.processRules
        { pe with matched := hmInsert pe.matched rule.name (partiallyMatchedExtract rule.name err) } rest ∧
    rule.name.data <:+: (extractFailMessage rule.name err).data ∧
    err.display.data <:+: (extractFailMessage rule.name err).data := by
  have hev : Matcher.evalRule pe rule = partiallyMatchedExtract rule.name err := by
    unfold Matcher.evalRule partiallyMatchedExtract
    rw [hop, hex]
    simp
  refine ⟨?_, ?_, ?_⟩
  · simp only [Matcher.processRules, hev]
    simp [partiallyMatchedExtract]
  · refine ⟨"Matcher process - The event matches the rule [".data,
      ("] but some variables cannot be extracted: [" ++ err.display ++ "]").data, ?_⟩
    simp [extractFailMessage, String.data_append, List.append_assoc]
  · refine ⟨("Matcher process - The event matches the rule [" ++ rule.name ++
        "] but some variables cannot be extracted: [").data, "]".data, ?_⟩
    simp [extractFailMessage, String.data_append, List.append_assoc]

/-- Witness for C1: a concrete rule whose operator matches and whose
extractor fails. -/
theorem c1_witness :
    Matcher.processRules fixturePe [mrFailExtract] =
      Matcher.processRules
        { fixturePe with matched := hmInsert fixturePe.matched mrFailExtract.name (partiallyMatchedExtract mrFailExtract.name (.MissingExtractedVariableError "v" "r1")) } [] ∧
    mrFailExtract.name.data <:+:
      (extractFailMessage mrFailExtract.name (.MissingExtractedVariableError "v" "r1")).data ∧
    (MatcherError.MissingExtractedVariableError "v" "r1").display.data <:+:
      (extractFailMessage mrFailExtract.name (.MissingExtractedVariableError "v" "r1")).data :=
  c1_extract_failure_partially_matched_and_continues fixturePe mrFailExtract []
    (.MissingExtractedVariableError "v" "r1") rfl rfl

/-- **C3**: for a rule with `do_continue == false`: (1) once it reaches
status `Matched`, the loop stops — the result is the state after inserting
only this rule, independent of every later rule (so no later rule is
evaluated and none appears in the output); (2) if its operator does not
match it does not stop the iteration — the loop records `NotMatched` and
recurses into the remaining rules. -/
theorem c3_do_continue_false_short_circuit
    (pe : ProcessedEvent) (rule : MatcherRule)
    (hcont : rule.do_continue = false) :
    ((Matcher.evalRule pe rule).status = ProcessedRuleStatus.Matched →
      ∀ rest : List MatcherRule,
        Matcher.processRules pe (rule :: rest) =
          { pe with matched := hmInsert pe.matched rule.name (Matcher.evalRule pe rule) }) ∧
    (rule.operator.evaluate pe = false →
      ∀ rest : List MatcherRule,
        Matcher.processRules pe (rule :: rest) =
          Matcher.processRules
            { pe with matched := hmInsert pe.matched rule.name notMatchedRule } rest) := by
  constructor
  · intro hm rest
    simp only [Matcher.processRules]
    rw [if_pos (by rw [hm, hcont]; rfl)]
  · intro hop rest
    have hev : Matcher.evalRule pe rule = notMatchedRule := by
      unfold Matcher.evalRule notMatchedRule
      rw [hop]
      simp
    simp only [Matcher.processRules, hev]
    simp [notMatchedRule]

/-- Witness for C3: a concrete matching rule with `do_continue == false`. -/
theorem c3_witness :
    ((Matcher.evalRule fixturePe mrStop).status = ProcessedRuleStatus.Matched →
      ∀ rest : List MatcherRule,
        Matcher.processRules fixturePe (mrStop :: rest) =
          { fixturePe with
            matched := hmInsert fixturePe.matched mrStop.name (Matcher.evalRule fixturePe mrStop) }) ∧
    (mrStop.operator.evaluate fixturePe = false →
      ∀ rest : List MatcherRule,
        Matcher.processRules fixturePe (mrStop :: rest) =
          Matcher.processRules
            { fixturePe with matched := hmInsert fixturePe.matched mrStop.name notMatchedRule } rest) :=
  c3_do_continue_false_short_circuit fixturePe mrStop rfl

/-- **C9**: any input that, after trimming, does not both start with `${`
and end with `}` compiles (for every rule-name context) to a `Constant`
accessor holding the untrimmed input text, whose evaluation on every
processed event yields exactly that text. -/
theorem c9_non_delimited_input_is_constant
    (rule_name input : String)
    (h : (strStartsWith (strTrim input) "$\x7b" && strEndsWith (strTrim input) "\x7d") = false) :
    AccessorBuilder.build rule_name input = .ok (.Constant (.text input)) ∧
    ∀ pe : ProcessedEvent, Accessor.get (.Constant (.text input)) pe = some (.text input) := by
  constructor
  · simp only [AccessorBuilder.build, h]
    simp
  · intro pe
    rfl

/-- Witness for C9: the undelimited expression `event.type` compiles to the
constant text `event.type`, not to an event lookup. -/
theorem c9_witness :
    AccessorBuilder.build "r" "event.type" = .ok (.Constant (.text "event.type")) ∧
    ∀ pe : ProcessedEvent,
      Accessor.get (.Constant (.text "event.type")) pe = some (.text "event.type") :=
  c9_non_delimited_input_is_constant "r" "event.type" rfl

/-- If some active rule of the list fails to build, the compile loop of
`Matcher::new` fails. -/
theorem compileRules_error_of_buildRule_error
    (rules : List Rule) (r : Rule) (err : MatcherError)
    (hmem : r ∈ rules) (hactive : r.active = true) (hbuild : Matcher.buildRule r = .error err) :
    ∃ e', Matcher.compileRules rules = .error e' := by
  induction rules with
  | nil => exact absurd hmem (List.not_mem_nil r)
  | cons head rest ih =>
    rcases List.mem_cons.mp hmem with heq | hmem'
    · subst heq
      exact ⟨err, by simp [Matcher.compileRules, hactive, hbuild]⟩
    · by_cases hha : head.active
      · cases hb : Matcher.buildRule head with
        | error e => exact ⟨e, by simp [Matcher.compileRules, hha, hb]⟩
        | ok mr =>
          rcases ih hmem' with ⟨e', he'⟩
          exact ⟨e', by simp [Matcher.compileRules, hha, hb, he']⟩
      · rcases ih hmem' with ⟨e', he'⟩
        exact ⟨e', by simpa [Matcher.compileRules, hha] using he'⟩

/-- **C8**: (1) every `${…}`-delimited input whose inner expression is
neither `event`, nor `event.`-prefixed, nor `_variables.`-prefixed fails to
compile with `UnknownAccessor` carrying the (trimmed) accessor text;
(2) a build failure of any active rule makes `Matcher::new` return an
error, so no `Matcher` value is constructed.  (`Matcher.process` is a total
function into `ProcessedEvent`, so build errors cannot be raised there.) -/
theorem c8_unknown_accessor_fails_build
    : (∀ rule_name input : String,
        strStartsWith (strTrim input) "$\x7b" = true →
        strEndsWith (strTrim input) "\x7d" = true →
        strStartsWith (strTrim (strDropLast (strDrop (strTrim input) 2))) "event." = false →
        (strTrim (strDropLast (strDrop (strTrim input) 2)) == "event") = false →
        strStartsWith (strTrim (strDropLast (strDrop (strTrim input) 2))) "_variables." = false →
        AccessorBuilder.build rule_name input =
          .error (.UnknownAccessorError (strTrim input))) ∧
      (∀ (rules : List Rule) (r : Rule) (err : MatcherError),
        r ∈ rules → r.active = true → Matcher.buildRule r = .error err →
        ∃ e', Matcher.new rules = .error e') := by
  constructor
  · intro rule_name input hs he hev heq hvar
    simp only [AccessorBuilder.build, hs, he, hev, heq, hvar]
    simp
  · intro rules r err hmem hactive hbuild
    cases hv : RuleValidator.validate_all rules with
    | error e => exact ⟨e, by simp [Matcher.new, hv]⟩
    | ok u =>
      rcases compileRules_error_of_buildRule_error rules r err hmem hactive hbuild with ⟨e', he'⟩
      exact ⟨e', by simp [Matcher.new, hv, he']⟩

/-- Witness for C8: `${foo}` fails with `UnknownAccessor`, and a rule whose
`where` operator uses `${foo}` makes `Matcher::new` fail. -/
theorem c8_witness :
    AccessorBuilder.build "r" "${foo}" = .error (.UnknownAccessorError (strTrim "${foo}")) ∧
    ∃ e', Matcher.new [mkConfigRule "a" 0 (.Equal "${foo}" "1")] = .error e' :=
  ⟨c8_unknown_accessor_fails_build.1 "r" "${foo}" rfl rfl rfl rfl rfl,
   c8_unknown_accessor_fails_build.2 [mkConfigRule "a" 0 (.Equal "${foo}" "1")]
     (mkConfigRule "a" 0 (.Equal "${foo}" "1")) (.UnknownAccessorError "${foo}")
     (List.mem_singleton.mpr rfl) rfl rfl⟩

/-- **C2**: if a rule's entry in the output of `Matcher::process` has
status `Matched`, then some compiled rule of that name reached a state
where its operator matched, `extract_all` succeeded — producing a value
under the qualified key of every extractor of its `with` mapping — and
every action rendered without error. -/
theorem c2_matched_implies_extraction_and_actions
    (m : Matcher) (e : Event) (name : String) (pr : ProcessedRule)
    (hlook : hmLookup (Matcher.process m e).matched name = some pr)
    (hst : pr.status = ProcessedRuleStatus.Matched) :
    ∃ rule ∈ m.rules, rule.name = name ∧ ∃ pe',
      rule.operator.evaluate pe' = true ∧
      (∃ vars, rule.extractor.extract_all pe' = .ok vars ∧
        ∀ p ∈ rule.extractor.vars,
          (hmLookup vars (qualifiedVarKey rule.extractor.ruleName p.1)).isSome = true) ∧
      ∀ a ∈ rule.actions, ∃ ra, a.execute pe' = .ok ra := by
  rcases processRules_matched_inv m.rules (ProcessedEvent.new e) name pr hlook hst with
    hbase | ⟨rule, hmem, hn, pe', hop, ⟨vars, hok⟩, hacts⟩
  · exact absurd hbase (by simp [ProcessedEvent.new, hmLookup])
  · refine ⟨rule, hmem, hn, pe', hop, ⟨vars, hok, ?_⟩, hacts⟩
    exact (extractVarsLoop_ok_keys pe' rule.extractor.ruleName rule.extractor.vars [] vars hok).2

/-- Witness for C2: the single always-matching rule of `mPlainMatcher`
yields a `Matched` entry, and the theorem applies to it. -/
theorem c2_witness :
    ∃ rule ∈ mPlainMatcher.rules, rule.name = "r2" ∧ ∃ pe',
      rule.operator.evaluate pe' = true ∧
      (∃ vars, rule.extractor.extract_all pe' = .ok vars ∧
        ∀ p ∈ rule.extractor.vars,
          (hmLookup vars (qualifiedVarKey rule.extractor.ruleName p.1)).isSome = true) ∧
      ∀ a ∈ rule.actions, ∃ ra, a.execute pe' = .ok ra :=
  c2_matched_implies_extraction_and_actions mPlainMatcher fixtureEvent "r2"
    { status := .Matched, extracted_vars := [], actions := [], message := none } rfl rfl

theorem mem_insertByPriority (a x : MatcherRule) (l : List MatcherRule) :
    x ∈ insertByPriority a l ↔ x = a ∨ x ∈ l := by
  induction l with
  | nil => simp [insertByPriority]
  | cons b bs ih =>
    simp only [insertByPriority]
    by_cases h : b.priority ≤ a.priority
    · rw [if_pos h]
      simp only [List.mem_cons, ih]
      tauto
    · rw [if_neg h]
      simp only [List.mem_cons]

theorem pairwise_insertByPriority (a : MatcherRule) (l : List MatcherRule)
    (h : l.Pairwise (fun x y => x.priority ≤ y.priority)) :
    (insertByPriority a l).Pairwise (fun x y => x.priority ≤ y.priority) := by
  induction l with
  | nil => simp [insertByPriority]
  | cons b bs ih =>
    rcases List.pairwise_cons.mp h with ⟨hb, hbs⟩
    simp only [insertByPriority]
    by_cases hle : b.priority ≤ a.priority
    · rw [if_pos hle]
      refine List.pairwise_cons.mpr ⟨?_, ih hbs⟩
      intro x hx
      rcases (mem_insertByPriority a x bs).mp hx with hx | hx
      · subst hx
        exact hle
      · exact hb x hx
    · rw [if_neg hle]
      refine List.pairwise_cons.mpr ⟨?_, h⟩
      intro x hx
      rcases List.mem_cons.mp hx with hx | hx
      · subst hx
        omega
      · exact le_trans (by omega) (hb x hx)

theorem sortByPriority_pairwise (l : List MatcherRule) :
    (sortByPriority l).Pairwise (fun x y => x.priority ≤ y.priority) := by
  suffices h : ∀ acc : List MatcherRule, acc.Pairwise (fun x y => x.priority ≤ y.priority) →
      (l.foldl (fun acc x => insertByPriority x acc) acc).Pairwise
        (fun x y => x.priority ≤ y.priority) by
    exact h [] (by simp)
  induction l with
  | nil => intro acc hacc; exact hacc
  | cons b bs ih =>
    intro acc hacc
    exact ih _ (pairwise_insertByPriority b acc hacc)

/-- The counterexample to **C4**: rules declared `[a, b]` with priorities
`a: 2`, `b: 1` are compiled into the order `[b, a]`, and processing (both
match with `do_continue: false`) evaluates `b`, not `a`: declaration order
is not the evaluation order, and the `priority` field determines it. -/
theorem c4_counterexample :
    (Matcher.new [c4RuleA, c4RuleB]).map (fun m => m.rules.map MatcherRule.name) =
      .ok ["b", "a"] ∧
    (Matcher.new [c4RuleA, c4RuleB]).map
      (fun m => (Matcher.process m fixtureEvent).matched.map Prod.fst) = .ok ["b"] ∧
    (["b", "a"] ≠ ["a", "b"]) :=
  ⟨rfl, rfl, by decide⟩

/-- **C4 amended**: the compiled rules of `Matcher::new` are ordered by
ascending `priority` (a `u16` field of the configuration rule, validated
unique), and `Matcher::process` evaluates them in that order. -/
theorem c4_amended_priority_order (rules : List Rule) (m : Matcher)
    (h : Matcher.new rules = .ok m) :
    m.rules.Pairwise (fun x y => x.priority ≤ y.priority) := by
  unfold Matcher.new at h
  split at h
  · exact absurd h (by simp)
  · split at h
    · exact absurd h (by simp)
    · cases h
      exact sortByPriority_pairwise _

/-- Witness for the amended C4: the two-rule configuration compiles to
`c4CompiledMatcher`, which is sorted by priority. -/
theorem c4_amended_witness :
    (c4CompiledMatcher.rules.Pairwise (fun x y => x.priority ≤ y.priority)) :=
  c4_amended_priority_order [c4RuleA, c4RuleB] c4CompiledMatcher rfl

theorem checkUniqueNames_nodup (rules : List Rule)
    (h : checkUniqueNames rules = .ok ()) : (rules.map Rule.name).Nodup := by
  induction rules with
  | nil => simp
  | cons r rest ih =>
    simp only [checkUniqueNames] at h
    by_cases hany : rest.any (fun r' => r'.name == r.name)
    · rw [if_pos hany] at h
      exact absurd h (by simp)
    · rw [if_neg hany] at h
      refine List.nodup_cons.mpr ⟨?_, ih h⟩
      intro hmem
      rcases List.mem_map.mp hmem with ⟨r', hr', hname⟩
      exact absurd (List.any_eq_true.mpr ⟨r', hr', by simp [hname]⟩) hany

theorem validate_all_ok_names (rules : List Rule)
    (h : RuleValidator.validate_all rules = .ok ()) : checkUniqueNames rules = .ok () := by
  unfold RuleValidator.validate_all at h
  cases h1 : checkNames rules with
  | error e => rw [h1] at h; exact absurd h (by simp)
  | ok u =>
    rw [h1] at h
    have h2 : (match checkUniqueNames rules with
        | .error e => (.error e : Except MatcherError Unit)
        | .ok _ => checkUniquePriorities rules) = .ok () := h
    cases h3 : checkUniqueNames rules with
    | error e => rw [h3] at h2; exact absurd h2 (by simp)
    | ok u2 => cases u2; rfl

theorem validate_all_nodup (rules : List Rule)
    (h : RuleValidator.validate_all rules = .ok ()) : (rules.map Rule.name).Nodup :=
  checkUniqueNames_nodup rules (validate_all_ok_names rules h)

theorem buildRule_name (r : Rule) (mr : MatcherRule) (h : Matcher.buildRule r = .ok mr) :
    mr.name = r.name := by
  unfold Matcher.buildRule at h
  split at h
  · exact absurd h (by simp)
  · split at h
    · exact absurd h (by simp)
    · split at h
      · exact absurd h (by simp)
      · cases h
        rfl

theorem compileRules_mem (rules : List Rule) :
    ∀ l, Matcher.compileRules rules = .ok l →
      ∀ mr ∈ l, ∃ r ∈ rules, r.active = true ∧ mr.name = r.name := by
  induction rules with
  | nil =>
    intro l h mr hmr
    simp only [Matcher.compileRules] at h
    cases h
    exact absurd hmr (List.not_mem_nil mr)
  | cons r rest ih =>
    intro l h mr hmr
    simp only [Matcher.compileRules] at h
    by_cases hact : r.active
    · rw [if_pos hact] at h
      cases hb : Matcher.buildRule r with
      | error e =>
        rw [hb] at h
        exact absurd h (by simp)
      | ok mr0 =>
        rw [hb] at h
        have h2 : (match Matcher.compileRules rest with
            | .error e => (.error e : Except MatcherError (List MatcherRule))
            | .ok mrs => .ok (mr0 :: mrs)) = .ok l := h
        cases hc : Matcher.compileRules rest with
        | error e =>
          rw [hc] at h2
          exact absurd h2 (by simp)
        | ok mrs =>
          rw [hc] at h2
          have h3 : mr0 :: mrs = l := by
            cases h2
            rfl
          subst h3
          rcases List.mem_cons.mp hmr with hmr | hmr
          · subst hmr
            exact ⟨r, List.mem_cons_self r rest, hact, buildRule_name r mr hb⟩
          · rcases ih mrs hc mr hmr with ⟨r', hr', hact', hname'⟩
            exact ⟨r', List.mem_cons_of_mem r hr', hact', hname'⟩
    · rw [if_neg hact] at h
      rcases ih l h mr hmr with ⟨r', hr', hact', hname'⟩
      exact ⟨r', List.mem_cons_of_mem r hr', hact', hname'⟩

theorem mem_sortByPriority (x : MatcherRule) (l : List MatcherRule) :
    x ∈ sortByPriority l ↔ x ∈ l := by
  suffices h : ∀ acc : List MatcherRule,
      (x ∈ l.foldl (fun acc y => insertByPriority y acc) acc ↔ x ∈ acc ∨ x ∈ l) by
    simpa using h []
  induction l with
  | nil => intro acc; simp
  | cons b bs ih =>
    intro acc
    simp only [List.foldl_cons]
    rw [ih (insertByPriority b acc), mem_insertByPriority]
    simp only [List.mem_cons]
    tauto

theorem processRules_lookup_of_not_mem (rs : List MatcherRule) :
    ∀ (pe : ProcessedEvent) (k : String), k ∉ rs.map MatcherRule.name →
      hmLookup (Matcher.processRules pe rs).matched k = hmLookup pe.matched k := by
  induction rs with
  | nil => intro pe k _; rfl
  | cons rule rest ih =>
    intro pe k h
    simp only [List.map_cons, List.mem_cons] at h
    push_neg at h
    simp only [Matcher.processRules]
    by_cases hstop : ((Matcher.evalRule pe rule).status == ProcessedRuleStatus.Matched &&
        !rule.do_continue) = true
    · rw [if_pos hstop]
      exact hmLookup_insert_other _ _ _ _ h.1
    · rw [if_neg hstop]
      rw [ih _ k h.2]
      exact hmLookup_insert_other _ _ _ _ h.1

/-- The counterexample to **C5**: a single rule with `active: false`
compiles to a matcher with no rules, and the processed output has no entry
for it at all — in particular no entry with status `NotProcessed`. -/
theorem c5_counterexample :
    (Matcher.new [c5Inactive]).map (fun m => m.rules.length) = .ok 0 ∧
    (Matcher.new [c5Inactive]).map
      (fun m => hmLookup (Matcher.process m fixtureEvent).matched "a") = .ok none ∧
    (Matcher.new [c5Inactive]).map
      (fun m => (Matcher.process m fixtureEvent).matched.length) = .ok 0 :=
  ⟨rfl, rfl, rfl⟩

/-- **C5 amended**: a rule with `active: false` is skipped by the compile
loop of `Matcher::new`: no compiled rule carries its name and, for every
event, the output of `process` has no entry for it (with any status). -/
theorem c5_amended_inactive_rules_dropped
    (rules : List Rule) (m : Matcher) (r : Rule) (e : Event)
    (hnew : Matcher.new rules = .ok m) (hr : r ∈ rules) (hactive : r.active = false) :
    (∀ mr ∈ m.rules, mr.name ≠ r.name) ∧
    hmLookup (Matcher.process m e).matched r.name = none := by
  unfold Matcher.new at hnew
  cases hv : RuleValidator.validate_all rules with
  | error e0 =>
    rw [hv] at hnew
    exact absurd hnew (by simp)
  | ok u =>
    cases u
    rw [hv] at hnew
    have h2 : (match Matcher.compileRules rules with
        | .error e0 => (.error e0 : Except MatcherError Matcher)
        | .ok compiled => .ok { rules := sortByPriority compiled }) = .ok m := hnew
    cases hc : Matcher.compileRules rules with
    | error e0 =>
      rw [hc] at h2
      exact absurd h2 (by simp)
    | ok compiled =>
      rw [hc] at h2
      have hm : ({ rules := sortByPriority compiled } : Matcher) = m := by
        cases h2
        rfl
      subst hm
      have hnodup := validate_all_nodup rules hv
      have hmemname : ∀ mr ∈ sortByPriority compiled, mr.name ≠ r.name := by
        intro mr hmr hname
        rcases compileRules_mem rules compiled hc mr
            ((mem_sortByPriority mr compiled).mp hmr) with ⟨r', hr', hact', hname'⟩
        have hrr : r' = r :=
          List.inj_on_of_nodup_map hnodup hr' hr (by rw [← hname', hname])
        rw [hrr, hactive] at hact'
        exact absurd hact' (by simp)
      refine ⟨hmemname, ?_⟩
      have hnot : r.name ∉ (sortByPriority compiled).map MatcherRule.name := by
        intro hmem
        rcases List.mem_map.mp hmem with ⟨mr, hmr, hn⟩
        exact hmemname mr hmr hn
      unfold Matcher.process
      rw [processRules_lookup_of_not_mem _ _ _ hnot]
      rfl

/-- Witness for the amended C5: the one-rule inactive configuration
compiles to the empty matcher and its name is absent from every output. -/
theorem c5_amended_witness :
    (∀ mr ∈ (⟨[]⟩ : Matcher).rules, mr.name ≠ c5Inactive.name) ∧
    hmLookup (Matcher.process ⟨[]⟩ fixtureEvent).matched c5Inactive.name = none :=
  c5_amended_inactive_rules_dropped [c5Inactive] ⟨[]⟩ c5Inactive fixtureEvent rfl
    (List.mem_singleton.mpr rfl) rfl

theorem mk_data (s : String) : String.mk s.data = s := rfl

theorem id_char_not_ws {c : Char} (h : (c.isAlphanum || c == '_') = true) :
    c.isWhitespace = false := by
  by_contra hw
  rw [Bool.not_eq_false] at hw
  have hcases : ((c = ' ' ∨ c = '\t') ∨ c = '\x0d') ∨ c = '\n' := by
    simpa [Char.isWhitespace] using hw
  rcases hcases with ((rfl | rfl) | rfl) | rfl <;> exact absurd h (by decide)

theorem isValidId_chars {s : String} (h : isValidId s = true) :
    ∀ c ∈ s.data, (c.isAlphanum || c == '_') = true := by
  unfold isValidId at h
  intro c hc
  cases hs : s.data with
  | nil =>
    rw [hs] at hc
    exact absurd hc (List.not_mem_nil c)
  | cons c0 cs =>
    rw [hs] at h hc
    have h2 : ((c0.isAlpha || c0 == '_') && cs.all (fun x => x.isAlphanum || x == '_')) = true := h
    rw [Bool.and_eq_true] at h2
    obtain ⟨hhead, htail⟩ := h2
    rw [Bool.or_eq_true] at hhead
    rcases List.mem_cons.mp hc with rfl | hc
    · rcases hhead with ha | hu
      · simp [Char.isAlphanum, ha]
      · simp [hu]
    · simpa using List.all_eq_true.mp htail c hc

theorem dropWhile_eq_self_of_all {α : Type} (p : α → Bool) (l : List α)
    (h : ∀ c ∈ l, p c = false) : l.dropWhile p = l := by
  cases l with
  | nil => rfl
  | cons a as =>
    rw [List.dropWhile_cons]
    simp [h a (List.mem_cons_self a as)]

theorem charsTrim_eq_self {l : List Char} (h : ∀ c ∈ l, c.isWhitespace = false) :
    charsTrim l = l := by
  unfold charsTrim
  rw [dropWhile_eq_self_of_all _ l h]
  rw [dropWhile_eq_self_of_all _ l.reverse (fun c hc => h c (List.mem_reverse.mp hc))]
  exact List.reverse_reverse l

/-- `AccessorBuilder::build` on a `${_variables.<id>}` expression with a
valid identifier yields the `ExtractedVar` accessor whose key is exactly
`format!("{}.{}", rule_name, id)`. -/
theorem build_variables_accessor (rn id : String) (hid : isValidId id = true) :
    AccessorBuilder.build rn ("$\x7b_variables." ++ id ++ "\x7d") =
      .ok (.ExtractedVar (qualifiedVarKey rn id)) := by
  have hchars := isValidId_chars hid
  have hdata : ("$\x7b_variables." ++ id ++ "\x7d").data =
      '$' :: '{' :: '_' :: 'v' :: 'a' :: 'r' :: 'i' :: 'a' :: 'b' :: 'l' :: 'e' :: 's' :: '.' ::
        (id.data ++ ['}']) := by
    rw [String.data_append, String.data_append]
    rfl
  have hlitws : ∀ c ∈ ("$\x7b_variables.".data), c.isWhitespace = false := by decide
  have hallws : ∀ c ∈ ("$\x7b_variables." ++ id ++ "\x7d").data, c.isWhitespace = false := by
    intro c hc
    rw [String.data_append, String.data_append] at hc
    rcases List.mem_append.mp hc with h1 | h2
    · rcases List.mem_append.mp h1 with h3 | h4
      · exact hlitws c h3
      · exact id_char_not_ws (hchars c h4)
    · have h5 : c ∈ ['}'] := h2
      rcases List.mem_singleton.mp h5 with rfl
      decide
  have htrim : strTrim ("$\x7b_variables." ++ id ++ "\x7d") = "$\x7b_variables." ++ id ++ "\x7d" := by
    unfold strTrim
    rw [charsTrim_eq_self hallws]
  have hstart : strStartsWith ("$\x7b_variables." ++ id ++ "\x7d") "$\x7b" = true := by
    unfold strStartsWith
    rw [hdata]
    rfl
  have hend : strEndsWith ("$\x7b_variables." ++ id ++ "\x7d") "\x7d" = true := by
    unfold strEndsWith
    rw [hdata]
    have hrev : ('$' :: '{' :: '_' :: 'v' :: 'a' :: 'r' :: 'i' :: 'a' :: 'b' :: 'l' :: 'e' ::
        's' :: '.' :: (id.data ++ ['}'])).reverse =
        '}' :: (id.data.reverse ++
          ['.', 's', 'e', 'l', 'b', 'a', 'i', 'r', 'a', 'v', '_', '{', '$']) := by
      simp
    rw [hrev]
    show charsPrefix ['}'] ('}' :: (id.data.reverse ++
      ['.', 's', 'e', 'l', 'b', 'a', 'i', 'r', 'a', 'v', '_', '{', '$'])) = true
    rfl
  have hdrop : strDrop ("$\x7b_variables." ++ id ++ "\x7d") 2 =
      String.mk ('_' :: 'v' :: 'a' :: 'r' :: 'i' :: 'a' :: 'b' :: 'l' :: 'e' :: 's' :: '.' ::
        (id.data ++ ['}'])) := by
    unfold strDrop
    rw [hdata]
    rfl
  have hdroplast : strDropLast (String.mk ('_' :: 'v' :: 'a' :: 'r' :: 'i' :: 'a' :: 'b' ::
      'l' :: 'e' :: 's' :: '.' :: (id.data ++ ['}']))) =
      String.mk ('_' :: 'v' :: 'a' :: 'r' :: 'i' :: 'a' :: 'b' :: 'l' :: 'e' :: 's' :: '.' ::
        id.data) := by
    unfold strDropLast
    congr 1
    have hsplit : ('_' :: 'v' :: 'a' :: 'r' :: 'i' :: 'a' :: 'b' :: 'l' :: 'e' :: 's' :: '.' ::
        (id.data ++ ['}'])) =
        ('_' :: 'v' :: 'a' :: 'r' :: 'i' :: 'a' :: 'b' :: 'l' :: 'e' :: 's' :: '.' ::
          id.data) ++ ['}'] := by
      simp
    rw [hsplit, List.dropLast_concat]
  have hpathws : ∀ c ∈ ('_' :: 'v' :: 'a' :: 'r' :: 'i' :: 'a' :: 'b' :: 'l' :: 'e' :: 's' ::
      '.' :: id.data), c.isWhitespace = false := by
    intro c hc
    have hc' : c ∈ ("_variables.".data ++ id.data) := hc
    rcases List.mem_append.mp hc' with h1 | h2
    · exact (by decide : ∀ c ∈ "_variables.".data, c.isWhitespace = false) c h1
    · exact id_char_not_ws (hchars c h2)
  have htrim2 : strTrim (String.mk ('_' :: 'v' :: 'a' :: 'r' :: 'i' :: 'a' :: 'b' :: 'l' ::
      'e' :: 's' :: '.' :: id.data)) =
      String.mk ('_' :: 'v' :: 'a' :: 'r' :: 'i' :: 'a' :: 'b' :: 'l' :: 'e' :: 's' :: '.' ::
        id.data) := by
    unfold strTrim
    show String.mk (charsTrim ('_' :: 'v' :: 'a' :: 'r' :: 'i' :: 'a' :: 'b' :: 'l' :: 'e' ::
      's' :: '.' :: id.data)) = _
    rw [charsTrim_eq_self hpathws]
  have hnotevent : strStartsWith (String.mk ('_' :: 'v' :: 'a' :: 'r' :: 'i' :: 'a' :: 'b' ::
      'l' :: 'e' :: 's' :: '.' :: id.data)) "event." = false := rfl
  have hnoteq : ((String.mk ('_' :: 'v' :: 'a' :: 'r' :: 'i' :: 'a' :: 'b' :: 'l' :: 'e' ::
      's' :: '.' :: id.data)) == "event") = false := rfl
  have hvars : strStartsWith (String.mk ('_' :: 'v' :: 'a' :: 'r' :: 'i' :: 'a' :: 'b' ::
      'l' :: 'e' :: 's' :: '.' :: id.data)) "_variables." = true := rfl
  have hidkey : strTrim (strDrop (String.mk ('_' :: 'v' :: 'a' :: 'r' :: 'i' :: 'a' :: 'b' ::
      'l' :: 'e' :: 's' :: '.' :: id.data)) 11) = id := by
    unfold strDrop strTrim
    show String.mk (charsTrim id.data) = id
    rw [charsTrim_eq_self (fun c hc => id_char_not_ws (hchars c hc))]
  unfold AccessorBuilder.build
  simp only [htrim, hstart, hend, Bool.and_self, if_true]
  rw [hdrop, hdroplast]
  simp only [htrim2, hnotevent, hnoteq, hvars, Bool.or_self, Bool.false_eq_true, if_false,
    if_true]
  rw [hidkey]
  simp only [validate_extracted_var_from_accessor, hid, if_true]
  rfl

theorem hmInsert_keys_sub {α : Type} (m : List (String × α)) (k : String) (v : α) :
    ∀ k', k' ∈ (hmInsert m k v).map Prod.fst → k' = k ∨ k' ∈ m.map Prod.fst := by
  induction m with
  | nil =>
    intro k' h
    simp only [hmInsert, List.map_cons, List.map_nil, List.mem_singleton] at h
    exact Or.inl h
  | cons kv rest ih =>
    intro k' h
    obtain ⟨k0, v0⟩ := kv
    simp only [hmInsert] at h
    by_cases h0 : k0 == k
    · rw [if_pos h0] at h
      simp only [List.map_cons, List.mem_cons] at h
      rcases h with h | h
      · exact Or.inl h
      · exact Or.inr (by simp [h])
    · rw [if_neg h0] at h
      simp only [List.map_cons, List.mem_cons] at h
      rcases h with h | h
      · exact Or.inr (by simp [h])
      · rcases ih k' h with h | h
        · exact Or.inl h
        · exact Or.inr (by simp [h])

/-- Every key of a successful `extractVarsLoop` result that is not a key
of the accumulator is the qualified key of one of the listed variables. -/
theorem extractVarsLoop_keys_shape (pe : ProcessedEvent) (rn : String) :
    ∀ (l : List (String × VarExtractor)) (acc res : List (String × Value)),
      extractVarsLoop pe rn l acc = .ok res →
      ∀ kv ∈ res, kv.1 ∈ acc.map Prod.fst ∨
        ∃ n ∈ l.map Prod.fst, kv.1 = qualifiedVarKey rn n := by
  intro l
  induction l with
  | nil =>
    intro acc res h kv hkv
    simp only [extractVarsLoop] at h
    cases h
    exact Or.inl (List.mem_map.mpr ⟨kv, hkv, rfl⟩)
  | cons p rest ih =>
    intro acc res h kv hkv
    obtain ⟨n, ve⟩ := p
    simp only [extractVarsLoop] at h
    cases hget : ve.fromAcc.get { pe with extracted_vars := hmOverlay pe.extracted_vars acc } with
    | none =>
      rw [hget] at h
      exact absurd h (by simp)
    | some v0 =>
      rw [hget] at h
      cases v0 with
      | text t =>
        have h2 : (match ve.capture t with
            | some v => extractVarsLoop pe rn rest (hmInsert acc (qualifiedVarKey rn n) v)
            | none => Except.error (MatcherError.MissingExtractedVariableError n rn)) =
              Except.ok res := h
        cases hcap : ve.capture t with
        | none =>
          rw [hcap] at h2
          exact absurd h2 (by simp)
        | some v =>
          rw [hcap] at h2
          rcases ih (hmInsert acc (qualifiedVarKey rn n) v) res h2 kv hkv with hin | ⟨n', hn', hk'⟩
          · rcases hmInsert_keys_sub acc (qualifiedVarKey rn n) v kv.1 hin with hk | hk
            · exact Or.inr ⟨n, by simp, hk⟩
            · exact Or.inl hk
          · exact Or.inr ⟨n', by simp [hn'], hk'⟩
      | null => exact absurd h (by simp)
      | bool b => exact absurd h (by simp)
      | number x => exact absurd h (by simp)
      | array xs => exact absurd h (by simp)
      | map xs => exact absurd h (by simp)

/-- **C6**: every key of the map returned by a successful `extract_all` is
the fully-qualified `"<rule>.<var>"` of one of the rule's `with` variables,
and (when that variable name is a valid identifier, as the validator
guarantees at build time) compiling `${_variables.<var>}` in the same
rule's context yields an `ExtractedVar` accessor targeting exactly that
key. -/
theorem c6_extracted_keys_match_accessor
    (ex : MatcherExtractor) (pe : ProcessedEvent) (vars : List (String × Value))
    (hok : ex.extract_all pe = .ok vars) (k : String) (v : Value) (hmem : (k, v) ∈ vars) :
    ∃ varName ∈ ex.vars.map Prod.fst,
      k = qualifiedVarKey ex.ruleName varName ∧
      (isValidId varName = true →
        AccessorBuilder.build ex.ruleName ("$\x7b_variables." ++ varName ++ "\x7d") =
          .ok (.ExtractedVar k)) := by
  rcases extractVarsLoop_keys_shape pe ex.ruleName ex.vars [] vars hok (k, v) hmem with
    hin | ⟨n, hn, hk⟩
  · exact absurd hin (by simp)
  · have hk' : k = qualifiedVarKey ex.ruleName n := hk
    refine ⟨n, hn, hk', fun hvalid => ?_⟩
    rw [hk']
    exact build_variables_accessor ex.ruleName n hvalid

/-- Witness for C6: a one-variable extractor stores under `r.x`, the key
the `${_variables.x}` accessor of rule `r` targets. -/
theorem c6_witness :
    ∃ varName ∈ c6Extractor.vars.map Prod.fst,
      "r.x" = qualifiedVarKey c6Extractor.ruleName varName ∧
      (isValidId varName = true →
        AccessorBuilder.build c6Extractor.ruleName ("$\x7b_variables." ++ varName ++ "\x7d") =
          .ok (.ExtractedVar "r.x")) :=
  c6_extracted_keys_match_accessor c6Extractor fixturePe [("r.x", .text "m")] rfl
    "r.x" (.text "m") (List.mem_singleton.mpr rfl)

/-- The counterexample to **C7**: parsing the key path `a..b` yields
`["a", "b"]`, not `["a", "", "b"]` — the token regex `[^\.]+` requires a
nonempty run, so consecutive dots produce no empty segment. -/
theorem c7_counterexample :
    parse_event_key "a..b" "full" "rule" = .ok ["a", "b"] ∧
    (["a", "b"] ≠ ["a", "", "b"]) :=
  ⟨rfl, by decide⟩

/-- **C7 amended**: consecutive dots yield no segment at all (`a..b` →
`["a", "b"]`); a leading dot and a trailing dot are likewise ignored
(`one.two.` → `["one", "two"]`, `.hello.world` → `["hello", "world"]`);
the empty key can only be written as a quoted empty pair (`one.""` →
`["one", ""]`). -/
theorem c7_amended_dot_handling :
    parse_event_key "a..b" "full" "rule" = .ok ["a", "b"] ∧
    parse_event_key "one.two." "full" "rule" = .ok ["one", "two"] ∧
    parse_event_key ".hello.world" "full" "rule" = .ok ["hello", "world"] ∧
    parse_event_key "one.\"\"" "full" "rule" = .ok ["one", ""] ∧
    parse_event_key "." "full" "rule" = .ok [] :=
  ⟨rfl, rfl, rfl, rfl, rfl⟩

theorem reachedRules_sublist :
    ∀ (rs : List MatcherRule) (pe : ProcessedEvent),
      (Matcher.reachedRules pe rs).Sublist rs := by
  intro rs
  induction rs with
  | nil => intro pe; simp [Matcher.reachedRules]
  | cons rule rest ih =>
    intro pe
    simp only [Matcher.reachedRules]
    by_cases hstop : ((Matcher.evalRule pe rule).status == ProcessedRuleStatus.Matched &&
        !rule.do_continue) = true
    · rw [if_pos hstop]
      exact (List.nil_sublist rest).cons₂ rule
    · rw [if_neg hstop]
      exact (ih _).cons₂ rule

/-- Keys of the processed output: the keys already present followed by the
names of the reached rules, provided the rule names are distinct and none
is already a key. -/
theorem processRules_keys :
    ∀ (rs : List MatcherRule) (pe : ProcessedEvent),
      (rs.map MatcherRule.name).Nodup →
      (∀ r ∈ rs, r.name ∉ pe.matched.map Prod.fst) →
      (Matcher.processRules pe rs).matched.map Prod.fst =
        pe.matched.map Prod.fst ++ (Matcher.reachedRules pe rs).map MatcherRule.name := by
  intro rs
  induction rs with
  | nil =>
    intro pe _ _
    simp [Matcher.processRules, Matcher.reachedRules]
  | cons rule rest ih =>
    intro pe hnodup hdisj
    have hnotin : rule.name ∉ pe.matched.map Prod.fst :=
      hdisj rule (List.mem_cons_self rule rest)
    have hins : hmInsert pe.matched rule.name (Matcher.evalRule pe rule) =
        pe.matched ++ [(rule.name, Matcher.evalRule pe rule)] :=
      hmInsert_append_of_not_mem pe.matched rule.name _ hnotin
    simp only [Matcher.processRules, Matcher.reachedRules]
    by_cases hstop : ((Matcher.evalRule pe rule).status == ProcessedRuleStatus.Matched &&
        !rule.do_continue) = true
    · rw [if_pos hstop, if_pos hstop]
      simp [hins]
    · rw [if_neg hstop, if_neg hstop]
      have hnodup' : (rule.name :: rest.map MatcherRule.name).Nodup := by simpa using hnodup
      rcases List.nodup_cons.mp hnodup' with ⟨hrn, hrest⟩
      have hkeys : ({ pe with matched := hmInsert pe.matched rule.name (Matcher.evalRule pe rule) } : ProcessedEvent).matched.map Prod.fst =
          pe.matched.map Prod.fst ++ [rule.name] := by
        simp [hins]
      rw [ih _ hrest ?hdisj2]
      case hdisj2 =>
        intro r hr
        rw [hkeys]
        intro hmem
        rcases List.mem_append.mp hmem with hmem | hmem
        · exact hdisj r (List.mem_cons_of_mem rule hr) hmem
        · have heq : r.name = rule.name := List.mem_singleton.mp hmem
          exact hrn (List.mem_map.mpr ⟨r, hr, heq⟩)
      rw [hkeys]
      simp

/-- **C10**: with distinct rule names (as `Matcher::new` validates), the
output map of `process` (modelled as an association list standing for the
`HashMap`) has exactly the reached rules as keys — one entry per reached
rule, in iteration order — and every rule that the loop did not reach
(everything after a `Matched` rule with `do_continue == false`) is absent
from the output under any status. -/
theorem c10_output_exactly_reached (m : Matcher) (e : Event)
    (hnodup : (m.rules.map MatcherRule.name).Nodup) :
    ((Matcher.process m e).matched.map Prod.fst =
      (Matcher.reachedRules (ProcessedEvent.new e) m.rules).map MatcherRule.name) ∧
    ((Matcher.process m e).matched.map Prod.fst).Nodup ∧
    (∀ r ∈ m.rules, r ∉ Matcher.reachedRules (ProcessedEvent.new e) m.rules →
      hmLookup (Matcher.process m e).matched r.name = none) := by
  have hkeys : (Matcher.process m e).matched.map Prod.fst =
      (Matcher.reachedRules (ProcessedEvent.new e) m.rules).map MatcherRule.name := by
    have := processRules_keys m.rules (ProcessedEvent.new e) hnodup (by simp [ProcessedEvent.new])
    simpa [Matcher.process, ProcessedEvent.new] using this
  have hsub : (Matcher.reachedRules (ProcessedEvent.new e) m.rules).Sublist m.rules :=
    reachedRules_sublist m.rules (ProcessedEvent.new e)
  refine ⟨hkeys, ?_, ?_⟩
  · rw [hkeys]
    exact List.Nodup.sublist (hsub.map MatcherRule.name) hnodup
  · intro r hr hnr
    have hnotmem : r.name ∉
        (Matcher.reachedRules (ProcessedEvent.new e) m.rules).map MatcherRule.name := by
      intro hmem
      rcases List.mem_map.mp hmem with ⟨r', hr', hname⟩
      have hr'rules : r' ∈ m.rules := hsub.subset hr'
      have : r' = r := List.inj_on_of_nodup_map hnodup hr'rules hr hname
      exact hnr (this ▸ hr')
    have : ¬ ((hmLookup (Matcher.process m e).matched r.name).isSome = true) := by
      rw [hmLookup_isSome_iff_mem, hkeys]
      exact hnotmem
    cases hlook : hmLookup (Matcher.process m e).matched r.name with
    | none => rfl
    | some pr => exact absurd (by rw [hlook]; rfl) this

/-- Witness for C10 on a concrete two-rule matcher whose first rule
matches and stops: only `r3` is reached, `r2` is absent. -/
theorem c10_witness :
    ((Matcher.process mStopMatcher fixtureEvent).matched.map Prod.fst =
      (Matcher.reachedRules (ProcessedEvent.new fixtureEvent) mStopMatcher.rules).map
        MatcherRule.name) ∧
    ((Matcher.process mStopMatcher fixtureEvent).matched.map Prod.fst).Nodup ∧
    (∀ r ∈ mStopMatcher.rules,
      r ∉ Matcher.reachedRules (ProcessedEvent.new fixtureEvent) mStopMatcher.rules →
      hmLookup (Matcher.process mStopMatcher fixtureEvent).matched r.name = none) :=
  c10_output_exactly_reached mStopMatcher fixtureEvent (by decide)

end Tornado
